import Mathlib

/-
Verification of the image-resizer backend core against its specification.

The development shallowly embeds the TypeScript sources:
- `src/utils/validation.ts`   (signature validation, filename sanitization)
- `src/controllers/processor.ts` (the sharp operation pipeline)
- `src/services/storage.ts`   (disk quota, timer-driven file cleanup)
- `src/services/metadata.ts`  (the metadata catalog and its snapshot)
- `src/routes/image.ts`       (upload and process route handlers)
- `src/server.ts`             (the periodic cleanup job)

Buffers are lists of byte values (Nat), JS `Map` objects are association
lists with JS insertion-order semantics, timestamps are integers
(milliseconds), and filesystem state is passed explicitly.
-/

namespace ImageApp

/-! ## Signature validation (`src/utils/validation.ts`) -/

/-- The fixed signature table `MAGIC_BYTES` from `validation.ts`:
each MIME type maps to a list of byte signatures. -/
def MAGIC_BYTES : List (String × List (List Nat)) :=
  [("image/jpeg", [[0xff, 0xd8, 0xff]]),
   ("image/png", [[0x89, 0x50, 0x4e, 0x47, 0x0d, 0x0a, 0x1a, 0x0a]]),
   ("image/webp", [[0x52, 0x49, 0x46, 0x46]]),
   ("image/gif", [[0x47, 0x49, 0x46, 0x38]])]

/-- The default `config.allowedMimeTypes` from `config.ts`
(`image/jpeg,image/png,image/webp,image/gif`). -/
def allowedMimeTypes : List String :=
  ["image/jpeg", "image/png", "image/webp", "image/gif"]

/-- The inner magic-byte loop of `validateFileSignature`: walk the
signature, comparing each byte with the corresponding buffer byte; a
buffer shorter than the signature fails (in JS, `buffer[i]` is
`undefined` there, which is `!==` any number). -/
def matchesSignature : List Nat → List Nat → Bool
  | _, [] => true
  | [], _ :: _ => false
  | b :: bs, s :: ss => b == s && matchesSignature bs ss

/-- Modelled from the spec: the `file-type` library's `fromBuffer` used by
`validateFileSignature` is external to the repository; per spec section 4.1,
"Detection inspects leading bytes against a fixed table of format
signatures", so sniffing returns the MIME type of the first table entry
whose signature matches the buffer's leading bytes. -/
def fromBuffer (buffer : List Nat) : Option String :=
  (MAGIC_BYTES.find? (fun entry => entry.2.any (fun sig => matchesSignature buffer sig))).map
    (fun entry => entry.1)

/-- `validateFileSignature` from `validation.ts`: sniff the buffer's type,
require it to be in the allow-list, then verify the buffer's leading bytes
against the sniffed type's registered signatures. -/
def validateFileSignature (buffer : List Nat) : Bool :=
  match fromBuffer buffer with
  | none => false
  | some mime =>
    if allowedMimeTypes.contains mime then
      match MAGIC_BYTES.lookup mime with
      | none => false
      | some sigs => sigs.any (fun sig => matchesSignature buffer sig)
    else false

/-! ## Filename sanitization (`src/utils/validation.ts`) -/

/-- Membership in the character class `[a-zA-Z0-9._-]` of the regex in
`sanitizeFilename`. -/
def isAllowedChar (c : Char) : Bool :=
  ('a' ≤ c && c ≤ 'z') || ('A' ≤ c && c ≤ 'Z') || ('0' ≤ c && c ≤ '9') ||
    c == '.' || c == '_' || c == '-'

/-- The per-character action of `filename.replace(/[^a-zA-Z0-9._-]/g, '_')`. -/
def sanitizeChar (c : Char) : Char :=
  if isAllowedChar c then c else '_'

/-- `sanitizeFilename` from `validation.ts`, on the filename's character
sequence: every character outside `[a-zA-Z0-9._-]` is replaced by `_`. -/
def sanitizeFilename (s : List Char) : List Char :=
  s.map sanitizeChar

theorem sanitizeChar_eq_of_allowed {c : Char} (h : isAllowedChar c = true) :
    sanitizeChar c = c := by
  unfold sanitizeChar
  simp [h]

theorem sanitizeChar_eq_of_not_allowed {c : Char} (h : isAllowedChar c = false) :
    sanitizeChar c = '_' := by
  unfold sanitizeChar
  simp [h]

theorem sanitizeChar_allowed (c : Char) : isAllowedChar (sanitizeChar c) = true := by
  cases h : isAllowedChar c with
  | true => rw [sanitizeChar_eq_of_allowed h]; exact h
  | false => rw [sanitizeChar_eq_of_not_allowed h]; decide

theorem sanitizeChar_idem (c : Char) : sanitizeChar (sanitizeChar c) = sanitizeChar c := by
  cases h : isAllowedChar c with
  | true => rw [sanitizeChar_eq_of_allowed h, sanitizeChar_eq_of_allowed h]
  | false => rw [sanitizeChar_eq_of_not_allowed h]; decide

/-- C10: `sanitizeFilename` replaces each character outside
`[a-zA-Z0-9._-]` with `_` and leaves the rest unchanged; hence its output
contains only characters of that class, has the input's length, and the
function is idempotent. -/
theorem sanitizeFilename_spec (s : List Char) :
    (∀ i : Fin s.length,
      (sanitizeFilename s).get (Fin.cast (by simp [sanitizeFilename]) i) =
        (if isAllowedChar (s.get i) then s.get i else '_'))
    ∧ (∀ c ∈ sanitizeFilename s, isAllowedChar c = true)
    ∧ (sanitizeFilename s).length = s.length
    ∧ sanitizeFilename (sanitizeFilename s) = sanitizeFilename s := by
  refine ⟨fun i => ?_, fun c hc => ?_, by simp [sanitizeFilename], ?_⟩
  · simp [sanitizeFilename, sanitizeChar]
  · rcases List.mem_map.mp hc with ⟨a, _, rfl⟩
    exact sanitizeChar_allowed a
  · simp only [sanitizeFilename, List.map_map]
    exact List.map_congr_left (fun c _ => sanitizeChar_idem c)

/-! ## Operation pipeline (`src/controllers/processor.ts`) -/

/-- The `'jpeg' | 'png' | 'webp'` union of `ConvertParams.format`. -/
inductive ImageFormat where
  | jpeg
  | png
  | webp
deriving DecidableEq, Repr

/-- The `fit` union of `ResizeParams`. -/
inductive FitMode where
  | cover
  | contain
  | fill
  | inside
  | outside
deriving DecidableEq, Repr

/-- `ResizeParams` from `types.ts` (all fields optional). -/
structure ResizeParams where
  width : Option Nat := none
  height : Option Nat := none
  fit : Option FitMode := none
deriving DecidableEq, Repr

/-- `CropParams` from `types.ts`. -/
structure CropParams where
  x : Int
  y : Int
  width : Int
  height : Int
deriving DecidableEq, Repr

/-- The closed `ImageOperation` union from `types.ts`. -/
inductive ImageOperation where
  | resize (params : ResizeParams)
  | crop (params : CropParams)
  | convert (format : ImageFormat)
  | quality (level : Nat)
deriving DecidableEq, Repr

/-- A step recorded on the sharp pipeline object: the unconditional
`rotate()` call, a `resize` call, or an `extract` (crop) call. `convert`
and `quality` operations record nothing here (`applyOperation` returns the
pipeline unchanged for them). -/
inductive SharpCall where
  | autoRotate
  | resizeCall (width height : Option Nat) (fit : FitMode) (withoutEnlargement : Bool)
  | extractCall (left top width height : Int)
deriving DecidableEq, Repr

/-- `ImageProcessor.applyOperation`: `resize` and `crop` append a pipeline
call (`fit` defaulting to `cover`, `withoutEnlargement: false`); `convert`
and `quality` leave the pipeline unchanged (handled later); unknown types
cannot occur in the closed union. -/
def applyOperation (pipeline : List SharpCall) : ImageOperation → List SharpCall
  | .resize p => pipeline ++ [.resizeCall p.width p.height (p.fit.getD .cover) false]
  | .crop p => pipeline ++ [.extractCall p.x p.y p.width p.height]
  | .convert _ => pipeline
  | .quality _ => pipeline

/-- One step of the second loop of `processImage`: a `convert` overwrites
the pending output format, a `quality` overwrites the pending quality,
anything else changes nothing. -/
def settingsStep (acc : ImageFormat × Nat) : ImageOperation → ImageFormat × Nat
  | .convert f => (f, acc.2)
  | .quality q => (acc.1, q)
  | _ => acc

/-- The second loop of `processImage`: starting from the defaults
`outputFormat = 'jpeg'`, `quality = 80`, walk the operations and overwrite
the output format on each `convert` and the quality on each `quality`. -/
def extractOutputSettings (operations : List ImageOperation) : ImageFormat × Nat :=
  operations.foldl settingsStep (.jpeg, 80)

/-- The observable outcome of `ImageProcessor.processImage`: the sequence
of pipeline calls and the format/quality used for the final encode. -/
structure PipelineResult where
  calls : List SharpCall
  outputFormat : ImageFormat
  outputQuality : Nat
deriving DecidableEq, Repr

/-- `ImageProcessor.processImage`: start with `sharp(input).rotate()`,
apply the operations in order, then resolve the output format and quality
and encode with them (the encoder switch maps each `ImageFormat` to its
own encoder, so the resolved format is the encode format). -/
def processImage (operations : List ImageOperation) : PipelineResult :=
  let pipeline := operations.foldl applyOperation [.autoRotate]
  let settings := extractOutputSettings operations
  { calls := pipeline, outputFormat := settings.1, outputQuality := settings.2 }

/-- Stated from the spec's words for C5: the format of the last `Convert`
entry of the list, if any. -/
def specLastConvert : List ImageOperation → Option ImageFormat
  | [] => none
  | op :: rest =>
    (specLastConvert rest).orElse
      (fun _ => match op with | .convert f => some f | _ => none)

/-- Stated from the spec's words for C5: the level of the last `Quality`
entry of the list, if any. -/
def specLastQuality : List ImageOperation → Option Nat
  | [] => none
  | op :: rest =>
    (specLastQuality rest).orElse
      (fun _ => match op with | .quality q => some q | _ => none)

/-- Whether an operation is applied positionally to the in-flight image
(`resize`/`crop`) rather than recorded as a pipeline-wide setting. -/
def isPositionalOp : ImageOperation → Bool
  | .resize _ => true
  | .crop _ => true
  | .convert _ => false
  | .quality _ => false

theorem extractOutputSettings_fst (operations : List ImageOperation) :
    ∀ init : ImageFormat × Nat,
      (operations.foldl settingsStep init).1 = (specLastConvert operations).getD init.1 := by
  induction operations with
  | nil => intro init; simp [specLastConvert]
  | cons op rest ih =>
    intro init
    rw [List.foldl_cons, ih]
    cases h : specLastConvert rest with
    | some f => simp [specLastConvert, settingsStep, h, Option.orElse]
    | none => cases op <;> simp [specLastConvert, settingsStep, h, Option.orElse]

theorem extractOutputSettings_snd (operations : List ImageOperation) :
    ∀ init : ImageFormat × Nat,
      (operations.foldl settingsStep init).2 = (specLastQuality operations).getD init.2 := by
  induction operations with
  | nil => intro init; simp [specLastQuality]
  | cons op rest ih =>
    intro init
    rw [List.foldl_cons, ih]
    cases h : specLastQuality rest with
    | some q => simp [specLastQuality, settingsStep, h, Option.orElse]
    | none => cases op <;> simp [specLastQuality, settingsStep, h, Option.orElse]

theorem foldl_applyOperation_filter (operations : List ImageOperation) :
    ∀ pipeline : List SharpCall,
      operations.foldl applyOperation pipeline =
        (operations.filter isPositionalOp).foldl applyOperation pipeline := by
  induction operations with
  | nil => intro pipeline; rfl
  | cons op rest ih =>
    intro pipeline
    cases op <;> simp [List.filter, isPositionalOp, applyOperation, ih]

/-- C5: `Convert` and `Quality` entries are pipeline-wide settings, not
positional steps: the output format is the last `Convert`'s format and the
output quality the last `Quality`'s level wherever they appear; the
pipeline calls are exactly those of the positional (`resize`/`crop`)
entries; and on `[Resize{100,100}, Convert{webp}, Quality{50},
Convert{png}]` the output is `png` at quality `50`. -/
theorem processImage_last_convert_quality_wins (operations : List ImageOperation) :
    (processImage operations).outputFormat = (specLastConvert operations).getD .jpeg
    ∧ (processImage operations).outputQuality = (specLastQuality operations).getD 80
    ∧ (processImage operations).calls =
        (processImage (operations.filter isPositionalOp)).calls
    ∧ (processImage
        [.resize { width := some 100, height := some 100 },
         .convert .webp, .quality 50, .convert .png]).outputFormat = .png
    ∧ (processImage
        [.resize { width := some 100, height := some 100 },
         .convert .webp, .quality 50, .convert .png]).outputQuality = 50 := by
  refine ⟨?_, ?_, ?_, by decide, by decide⟩
  · exact extractOutputSettings_fst operations (.jpeg, 80)
  · exact extractOutputSettings_snd operations (.jpeg, 80)
  · show operations.foldl applyOperation [.autoRotate] =
      (operations.filter isPositionalOp).foldl applyOperation [.autoRotate]
    exact foldl_applyOperation_filter operations [.autoRotate]

theorem specLastConvert_eq_none {operations : List ImageOperation}
    (h : ∀ op ∈ operations, (∀ f, op ≠ .convert f) ∧ (∀ q, op ≠ .quality q)) :
    specLastConvert operations = none := by
  induction operations with
  | nil => rfl
  | cons op rest ih =>
    have hop := h op (List.mem_cons_self op rest)
    have hrest := ih (fun o ho => h o (List.mem_cons_of_mem op ho))
    cases op with
    | convert f => exact absurd rfl (hop.1 f)
    | quality q => exact absurd rfl (hop.2 q)
    | resize p => simp [specLastConvert, hrest, Option.orElse]
    | crop p => simp [specLastConvert, hrest, Option.orElse]

theorem specLastQuality_eq_none {operations : List ImageOperation}
    (h : ∀ op ∈ operations, (∀ f, op ≠ .convert f) ∧ (∀ q, op ≠ .quality q)) :
    specLastQuality operations = none := by
  induction operations with
  | nil => rfl
  | cons op rest ih =>
    have hop := h op (List.mem_cons_self op rest)
    have hrest := ih (fun o ho => h o (List.mem_cons_of_mem op ho))
    cases op with
    | convert f => exact absurd rfl (hop.1 f)
    | quality q => exact absurd rfl (hop.2 q)
    | resize p => simp [specLastQuality, hrest, Option.orElse]
    | crop p => simp [specLastQuality, hrest, Option.orElse]

/-- C6: processing with an empty operation list succeeds and encodes with
the defaults (format `jpeg`, quality `80`, only the unconditional
auto-rotate on the pipeline), and the same defaults apply to every
operation list containing no `Convert` and no `Quality` entry. -/
theorem processImage_defaults :
    (processImage []).outputFormat = .jpeg
    ∧ (processImage []).outputQuality = 80
    ∧ (processImage []).calls = [.autoRotate]
    ∧ ∀ operations : List ImageOperation,
        (∀ op ∈ operations, (∀ f, op ≠ .convert f) ∧ (∀ q, op ≠ .quality q)) →
          (processImage operations).outputFormat = .jpeg
          ∧ (processImage operations).outputQuality = 80 := by
  refine ⟨by decide, by decide, by decide, fun operations h => ⟨?_, ?_⟩⟩
  · have hf := extractOutputSettings_fst operations (.jpeg, 80)
    rw [specLastConvert_eq_none h] at hf
    exact hf
  · have hq := extractOutputSettings_snd operations (.jpeg, 80)
    rw [specLastQuality_eq_none h] at hq
    exact hq

/-- Witness for C6 at a concrete convert-free and quality-free operation
list (a single crop). -/
theorem processImage_defaults_witness :
    (processImage [.crop { x := 1, y := 2, width := 3, height := 4 }]).outputFormat = .jpeg
    ∧ (processImage [.crop { x := 1, y := 2, width := 3, height := 4 }]).outputQuality = 80 :=
  processImage_defaults.2.2.2 [.crop { x := 1, y := 2, width := 3, height := 4 }]
    (by intro op hop; simp at hop; subst hop; exact ⟨fun f => by simp, fun q => by simp⟩)

/-! ## Metadata catalog (`src/services/metadata.ts`, `src/types.ts`) -/

/-- The `ImageMetadata` record from `types.ts`. `timestamp` is the
`Date.now()` value set at upload; `processedPath` and `operations` are the
optional fields filled by the process route. -/
structure ImageMetadata where
  fileId : String
  originalName : String
  size : Nat
  mimeType : String
  rawPath : String
  processedPath : Option String := none
  timestamp : Int
  operations : Option (List ImageOperation) := none
deriving DecidableEq, Repr

/-- The `MetadataStore` cache, a JS `Map<string, ImageMetadata>` with its
insertion-order semantics, as an association list. -/
abbrev Catalog := List (String × ImageMetadata)

/-- `Map.get`: the value stored under a key, if any. -/
def mapGet (cache : Catalog) (fileId : String) : Option ImageMetadata :=
  match cache with
  | [] => none
  | (k, v) :: rest => if k = fileId then some v else mapGet rest fileId

/-- `Map.set`: replace the value in place when the key exists (keeping its
position), otherwise append the new entry. -/
def mapSet (cache : Catalog) (fileId : String) (meta : ImageMetadata) : Catalog :=
  match cache with
  | [] => [(fileId, meta)]
  | (k, v) :: rest =>
    if k = fileId then (k, meta) :: rest else (k, v) :: mapSet rest fileId meta

/-- `MetadataStore.cleanup(ttlMs)`: walk the cache entries, delete every
entry whose `timestamp` is older than `ttlMs` relative to `now`
(`now - metadata.timestamp > ttlMs`), and return the surviving cache
together with the number of deleted records. -/
def cleanup (now ttlMs : Int) (cache : Catalog) : Catalog × Nat :=
  match cache with
  | [] => ([], 0)
  | (k, m) :: rest =>
    let r := cleanup now ttlMs rest
    if now - m.timestamp > ttlMs then (r.1, r.2 + 1) else ((k, m) :: r.1, r.2)

/-- The possible outcomes of `fs.readFile` + `JSON.parse` on the metadata
snapshot in `MetadataStore.initialize`: a successfully parsed record list,
an `ENOENT` error (file absent), or any other read/parse error (corrupt or
unreadable file). -/
inductive SnapshotRead where
  | ok (records : List ImageMetadata)
  | enoent
  | corrupt
deriving DecidableEq, Repr

/-- The observable outcome of `MetadataStore.initialize`: the in-memory
cache it leaves behind, whether it wrote the snapshot file (`save()`), and
whether it surfaced a fatal error to the caller (threw). -/
structure InitOutcome where
  cache : Catalog
  wroteSnapshot : Bool
  fatal : Bool
deriving DecidableEq, Repr

/-- `MetadataStore.initialize`: on a successful read, load every record
into the cache; on `ENOENT`, write a fresh empty snapshot; on any other
read or parse error, log it and continue with an empty cache — nothing is
written and no error is propagated (the constructor call site ignores the
promise). -/
def initMetadataStore : SnapshotRead → InitOutcome
  | .ok records =>
    { cache := records.foldl (fun c r => mapSet c r.fileId r) [],
      wroteSnapshot := false, fatal := false }
  | .enoent => { cache := [], wroteSnapshot := true, fatal := false }
  | .corrupt => { cache := [], wroteSnapshot := false, fatal := false }

/-- Counterexample for C2: a corrupt (non-`ENOENT`) snapshot at startup
does not surface a fatal startup error — `initialize` merely logs and
continues. -/
theorem initMetadataStore_corrupt_not_fatal :
    ¬ ((initMetadataStore .corrupt).fatal = true) := by
  decide

/-- C2 as amended: a corrupt or unreadable (non-`ENOENT`) snapshot is not
fatal at startup; initialization continues with an empty in-memory cache
and does not overwrite the snapshot file. Only the file-absent (`ENOENT`)
case initializes empty and writes an empty snapshot, and a successful read
loads the records without rewriting the file. -/
theorem initMetadataStore_spec :
    (initMetadataStore .corrupt).fatal = false
    ∧ (initMetadataStore .corrupt).cache = []
    ∧ (initMetadataStore .corrupt).wroteSnapshot = false
    ∧ (initMetadataStore .enoent).fatal = false
    ∧ (initMetadataStore .enoent).cache = []
    ∧ (initMetadataStore .enoent).wroteSnapshot = true
    ∧ ∀ records : List ImageMetadata,
        (initMetadataStore (.ok records)).fatal = false
        ∧ (initMetadataStore (.ok records)).wroteSnapshot = false :=
  ⟨rfl, rfl, rfl, rfl, rfl, rfl, fun _ => ⟨rfl, rfl⟩⟩

/-- Every record surviving `cleanup` is unexpired. -/
theorem cleanup_surviving_unexpired (now ttlMs : Int) (cache : Catalog) :
    ∀ p ∈ (cleanup now ttlMs cache).1, ¬ (now - p.2.timestamp > ttlMs) := by
  induction cache with
  | nil => intro p hp; simp [cleanup] at hp
  | cons e rest ih =>
    intro p hp
    obtain ⟨k, m⟩ := e
    by_cases h : now - m.timestamp > ttlMs
    · exact ih p (by simpa [cleanup, h] using hp)
    · rcases (by simpa [cleanup, h] using hp : p = (k, m) ∨ p ∈ (cleanup now ttlMs rest).1) with
        rfl | hmem
      · exact h
      · exact ih p hmem

/-- `cleanup` deletes nothing from a cache whose records are all
unexpired. -/
theorem cleanup_of_unexpired (now ttlMs : Int) (cache : Catalog)
    (h : ∀ p ∈ cache, ¬ (now - p.2.timestamp > ttlMs)) :
    cleanup now ttlMs cache = (cache, 0) := by
  induction cache with
  | nil => rfl
  | cons e rest ih =>
    obtain ⟨k, m⟩ := e
    have hm := h (k, m) (List.mem_cons_self _ _)
    have hrest := ih (fun p hp => h p (List.mem_cons_of_mem _ hp))
    simp [cleanup, hm, hrest]

/-- C8: the sweep is idempotent in immediate succession — for every cache
and fixed reference time, the first `cleanup` leaves no expired record, so
running it again removes 0 records and leaves the cache unchanged. -/
theorem cleanup_idempotent (now ttlMs : Int) (cache : Catalog) :
    (cleanup now ttlMs (cleanup now ttlMs cache).1).2 = 0
    ∧ (cleanup now ttlMs (cleanup now ttlMs cache).1).1 = (cleanup now ttlMs cache).1
    ∧ ∀ p ∈ (cleanup now ttlMs cache).1, ¬ (now - p.2.timestamp > ttlMs) := by
  have hsecond := cleanup_of_unexpired now ttlMs (cleanup now ttlMs cache).1
    (cleanup_surviving_unexpired now ttlMs cache)
  exact ⟨by rw [hsecond], by rw [hsecond], cleanup_surviving_unexpired now ttlMs cache⟩

/-! ## Process route metadata update (`src/routes/image.ts`) -/

/-- The metadata update performed by the `/process` route after a
successful `processImage` call: `meta.processedPath = outputPath;
meta.operations = operations; await metadata.set(fileId, meta)`. The
not-found branch (the route throws a 404 before processing) leaves the
catalog untouched. -/
def processRouteUpdate (cache : Catalog) (fileId outputPath : String)
    (operations : List ImageOperation) : Catalog :=
  match mapGet cache fileId with
  | none => cache
  | some meta =>
    mapSet cache fileId
      { meta with processedPath := some outputPath, operations := some operations }

theorem mapGet_mapSet_self (cache : Catalog) (fileId : String) (meta : ImageMetadata) :
    mapGet (mapSet cache fileId meta) fileId = some meta := by
  induction cache with
  | nil => simp [mapSet, mapGet]
  | cons e rest ih =>
    obtain ⟨k, v⟩ := e
    by_cases h : k = fileId
    · simp [mapSet, mapGet, h]
    · simp [mapSet, mapGet, h, ih]

theorem mapGet_mapSet_ne (cache : Catalog) (fileId other : String) (meta : ImageMetadata)
    (h : other ≠ fileId) :
    mapGet (mapSet cache fileId meta) other = mapGet cache other := by
  induction cache with
  | nil => simp [mapSet, mapGet, Ne.symm h]
  | cons e rest ih =>
    obtain ⟨k, v⟩ := e
    by_cases hk : k = fileId
    · subst hk
      simp [mapSet, mapGet, Ne.symm h]
    · simp [mapSet, mapGet, hk, ih]

/-- C9: for an existing record, a successful processing call overwrites
only `processedPath` and `operations`; `fileId`, `originalName`, `size`,
`mimeType`, `rawPath` and the `timestamp` expiry clock are unchanged, and
every other record of the catalog is untouched. -/
theorem processRouteUpdate_frame (cache : Catalog) (fileId outputPath : String)
    (operations : List ImageOperation) (meta : ImageMetadata)
    (h : mapGet cache fileId = some meta) :
    mapGet (processRouteUpdate cache fileId outputPath operations) fileId =
      some { meta with processedPath := some outputPath, operations := some operations }
    ∧ (∀ meta2, mapGet (processRouteUpdate cache fileId outputPath operations) fileId
          = some meta2 →
        meta2.fileId = meta.fileId
        ∧ meta2.originalName = meta.originalName
        ∧ meta2.size = meta.size
        ∧ meta2.mimeType = meta.mimeType
        ∧ meta2.rawPath = meta.rawPath
        ∧ meta2.timestamp = meta.timestamp
        ∧ meta2.processedPath = some outputPath
        ∧ meta2.operations = some operations)
    ∧ ∀ other, other ≠ fileId →
        mapGet (processRouteUpdate cache fileId outputPath operations) other =
          mapGet cache other := by
  unfold processRouteUpdate
  rw [h]
  refine ⟨mapGet_mapSet_self cache fileId _, fun meta2 h2 => ?_, fun other ho =>
    mapGet_mapSet_ne cache fileId other _ ho⟩
  rw [mapGet_mapSet_self cache fileId] at h2
  cases h2
  exact ⟨rfl, rfl, rfl, rfl, rfl, rfl, rfl, rfl⟩

/-- A concrete record for witnesses and counterexamples. -/
def sampleMeta : ImageMetadata :=
  { fileId := "f1", originalName := "cat.jpg", size := 3, mimeType := "image/jpeg",
    rawPath := "uploads/raw/f1.jpg", timestamp := 0 }

/-- A second concrete record under a different identifier. -/
def otherMeta : ImageMetadata :=
  { sampleMeta with fileId := "f2" }

/-- The record expected after processing `sampleMeta`. -/
def processedSampleMeta : ImageMetadata :=
  { sampleMeta with
      processedPath := some "uploads/processed/p1.png"
      operations := some [.convert .png] }

/-- Witness for C9 at a concrete two-record catalog. -/
theorem processRouteUpdate_frame_witness :
    mapGet (processRouteUpdate [("f1", sampleMeta), ("f2", otherMeta)]
        "f1" "uploads/processed/p1.png" [.convert .png]) "f1" = some processedSampleMeta
    ∧ mapGet (processRouteUpdate [("f1", sampleMeta), ("f2", otherMeta)]
        "f1" "uploads/processed/p1.png" [.convert .png]) "f2" =
        mapGet [("f1", sampleMeta), ("f2", otherMeta)] "f2" :=
  ⟨(processRouteUpdate_frame _ "f1" _ _ sampleMeta (by decide)).1,
   (processRouteUpdate_frame _ "f1" _ _ sampleMeta (by decide)).2.2 "f2" (by decide)⟩

/-! ## Artifact store (`src/services/storage.ts`) -/

/-- A filesystem entry under the upload root: a plain file with its byte
size, or a directory with its entries. -/
inductive FSEntry where
  | file (name : String) (size : Nat)
  | dir (name : String) (entries : List FSEntry)

mutual

/-- The size contribution of one entry in
`StorageService.calculateDirectorySize`: `stats.size` for a file, the
recursive directory size for a directory. -/
def entrySize : FSEntry → Nat
  | .file _ size => size
  | .dir _ entries => entriesSize entries

/-- `StorageService.calculateDirectorySize` over a directory's entry list:
sum file sizes, recursing into subdirectories. -/
def entriesSize : List FSEntry → Nat
  | [] => 0
  | e :: rest => entrySize e + entriesSize rest

end

/-- The contents of `config.uploadDir`: the `raw` and `processed`
subdirectories created by `StorageService.initialize`, plus whatever
other entries live directly under the upload root — in particular the
catalog snapshot `metadata.json`, which `MetadataStore` keeps at
`path.join(uploadDir, 'metadata.json')`. -/
structure UploadRoot where
  raw : List FSEntry
  processed : List FSEntry
  others : List FSEntry

/-- The entry list of `config.uploadDir` as `fs.readdir` sees it. -/
def uploadDirEntries (root : UploadRoot) : List FSEntry :=
  FSEntry.dir "raw" root.raw :: FSEntry.dir "processed" root.processed :: root.others

/-- `StorageService.checkDiskQuota`: recursively sum the sizes of
everything under `uploadDir` and compare against `config.maxDiskQuota`
(strictly below passes). -/
def checkDiskQuota (maxDiskQuota : Nat) (root : UploadRoot) : Bool :=
  entriesSize (uploadDirEntries root) < maxDiskQuota

/-- Stated from the spec's words for C7: true exactly when the recursive
byte total of the two artifact roots alone (raw and processed) is
strictly below the ceiling. -/
def specCheckQuota (maxDiskQuota : Nat) (root : UploadRoot) : Bool :=
  entriesSize root.raw + entriesSize root.processed < maxDiskQuota

/-- Counterexample for C7: with empty artifact roots but a 100-byte
`metadata.json` under the upload root, a 50-byte quota fails the code's
check although the two artifact roots total 0 bytes — the code counts
every file under `uploadDir`, not only the two roots. -/
theorem checkDiskQuota_counts_snapshot_file :
    checkDiskQuota 50 { raw := [], processed := [], others := [.file "metadata.json" 100] }
      = false
    ∧ specCheckQuota 50 { raw := [], processed := [], others := [.file "metadata.json" 100] }
      = true := by
  constructor
  · simp [checkDiskQuota, uploadDirEntries, entriesSize, entrySize]
  · simp [specCheckQuota, entriesSize, entrySize]

/-- C7 as amended: `checkDiskQuota` returns true exactly when the
recursive byte total of everything under the upload root — the raw and
processed artifact roots plus any other files there, such as the catalog
snapshot `metadata.json` — is strictly below the configured ceiling. -/
theorem checkDiskQuota_spec (maxDiskQuota : Nat) (root : UploadRoot) :
    checkDiskQuota maxDiskQuota root = true ↔
      entriesSize root.raw + entriesSize root.processed + entriesSize root.others
        < maxDiskQuota := by
  unfold checkDiskQuota uploadDirEntries
  rw [entriesSize, entriesSize, entrySize, entrySize]
  simp [Nat.add_assoc]

/-! ## Retention sweep (`src/server.ts`, `src/services/storage.ts`) -/

/-- A file in the `raw` or `processed` directory as the cleanup pass sees
it: its name and its `stats.mtimeMs` modification time. -/
structure StoredFile where
  name : String
  mtimeMs : Int
deriving DecidableEq, Repr

/-- The state the periodic cleanup job touches: the flat file listings of
the two artifact directories and the metadata catalog. -/
structure SystemState where
  rawFiles : List StoredFile
  processedFiles : List StoredFile
  catalog : Catalog
deriving DecidableEq, Repr

/-- `StorageService.cleanupDirectory`: delete every file whose
modification age exceeds the TTL (`now - stats.mtimeMs > ttlMs`); the
others survive. -/
def cleanupDirectory (now ttlMs : Int) (files : List StoredFile) : List StoredFile :=
  files.filter (fun f => !decide (now - f.mtimeMs > ttlMs))

/-- `StorageService.cleanupOldFiles(ttlHours)`: convert the TTL to
milliseconds and clean the `raw` and `processed` directories. It never
touches the metadata catalog. -/
def cleanupOldFiles (now ttlHours : Int) (st : SystemState) : SystemState :=
  let ttlMs := ttlHours * 60 * 60 * 1000
  { st with
      rawFiles := cleanupDirectory now ttlMs st.rawFiles
      processedFiles := cleanupDirectory now ttlMs st.processedFiles }

/-- The body of the `setInterval` cleanup job in `startServer`
(`server.ts`): it logs and calls `storage.cleanupOldFiles` with the
configured TTL — and nothing else; in particular it never calls
`metadata.cleanup`. -/
def cleanupJob (now ttlHours : Int) (st : SystemState) : SystemState :=
  cleanupOldFiles now ttlHours st

/-- Counterexample for C1: a record whose `timestamp` is far beyond the
24-hour TTL survives the timer-driven sweep in the catalog and is still
resolvable afterwards, because the job only deletes files and never
removes catalog entries. (Its raw artifact file, by contrast, is
deleted.) -/
theorem cleanupJob_leaves_expired_record_resolvable :
    (1000000000 - sampleMeta.timestamp > 24 * 60 * 60 * 1000)
    ∧ ¬ (mapGet (cleanupJob 1000000000 24
          { rawFiles := [{ name := "f1.jpg", mtimeMs := 0 }],
            processedFiles := [],
            catalog := [("f1", sampleMeta)] }).catalog "f1" = none)
    ∧ (cleanupJob 1000000000 24
        { rawFiles := [{ name := "f1.jpg", mtimeMs := 0 }],
          processedFiles := [],
          catalog := [("f1", sampleMeta)] }).rawFiles = [] := by
  refine ⟨by decide, ?_, ?_⟩
  · simp [cleanupJob, cleanupOldFiles, mapGet]
  · simp [cleanupJob, cleanupOldFiles, cleanupDirectory]

/-- C1 as amended: each run of the timer-driven sweep deletes, via the
Store, exactly the raw and processed files whose modification age exceeds
the TTL, and leaves the Catalog untouched — every record, expired or not,
resolves after the sweep exactly as before (the code's
`MetadataStore.cleanup` is never invoked by the job). -/
theorem cleanupJob_deletes_files_only (now ttlHours : Int) (st : SystemState) :
    (∀ fileId, mapGet (cleanupJob now ttlHours st).catalog fileId = mapGet st.catalog fileId)
    ∧ (∀ f, f ∈ (cleanupJob now ttlHours st).rawFiles ↔
        f ∈ st.rawFiles ∧ ¬ (now - f.mtimeMs > ttlHours * 60 * 60 * 1000))
    ∧ (∀ f, f ∈ (cleanupJob now ttlHours st).processedFiles ↔
        f ∈ st.processedFiles ∧ ¬ (now - f.mtimeMs > ttlHours * 60 * 60 * 1000)) := by
  refine ⟨fun fileId => rfl, fun f => ?_, fun f => ?_⟩
  · show f ∈ cleanupDirectory now (ttlHours * 60 * 60 * 1000) st.rawFiles ↔ _
    simp [cleanupDirectory]
  · show f ∈ cleanupDirectory now (ttlHours * 60 * 60 * 1000) st.processedFiles ↔ _
    simp [cleanupDirectory]

/-! ## Upload route (`src/routes/image.ts`, `src/middleware/upload.ts`) -/

/-- The name of a filesystem entry. -/
def entryName : FSEntry → String
  | .file name _ => name
  | .dir name _ => name

theorem entriesSize_append (l1 l2 : List FSEntry) :
    entriesSize (l1 ++ l2) = entriesSize l1 + entriesSize l2 := by
  induction l1 with
  | nil => simp [entriesSize]
  | cons e rest ih => simp [entriesSize, ih, Nat.add_assoc]

/-- `StorageService.deleteFile` on a file of the raw directory: best-effort
unlink of the named file (a missing file is not an error). -/
def deleteRawFile (root : UploadRoot) (filename : String) : UploadRoot :=
  { root with raw := root.raw.filter (fun e => !decide (entryName e = filename)) }

/-- The upload `req.file` produced by the multer disk storage: a fresh
UUID-based filename already written into the raw directory before the
route handler runs, plus the caller-supplied name and MIME type. -/
structure IncomingFile where
  filename : String
  fileId : String
  originalName : String
  size : Nat
  mimeType : String

/-- The state the upload route touches: the upload root's contents and the
metadata catalog. -/
structure ServerState where
  root : UploadRoot
  catalog : Catalog

/-- The possible outcomes of the upload route. -/
inductive UploadOutcome where
  | created
  | invalidFile
  | quotaExceeded
deriving DecidableEq, Repr

/-- The `POST /api/upload` handler: multer has already written the file
into the raw directory; the handler then checks the disk quota and, on
failure, deletes the just-written file and fails with 507 (quota
exceeded); next it validates the file signature and, on failure, deletes
the file and fails with 400; otherwise it records the metadata (keyed by
the filename's UUID stem, with `timestamp: Date.now()`). -/
def uploadHandler (maxDiskQuota : Nat) (sigValid : Bool) (f : IncomingFile) (now : Int)
    (st : ServerState) : UploadOutcome × ServerState :=
  let written : ServerState :=
    { st with root := { st.root with raw := st.root.raw ++ [.file f.filename f.size] } }
  if !checkDiskQuota maxDiskQuota written.root then
    (.quotaExceeded, { written with root := deleteRawFile written.root f.filename })
  else if !sigValid then
    (.invalidFile, { written with root := deleteRawFile written.root f.filename })
  else
    (.created,
      { written with
          catalog := mapSet written.catalog f.fileId
            { fileId := f.fileId, originalName := f.originalName, size := f.size,
              mimeType := f.mimeType, rawPath := "uploads/raw/" ++ f.filename,
              timestamp := now } })

/-- C3: when the quota check would return false at upload time, the upload
fails with the quota-exceeded error and the final state has no new file on
disk and no new catalog entry (the transiently written file is deleted
again). The freshness hypothesis reflects multer's fresh UUID filename. -/
theorem uploadHandler_quota_exceeded_atomic (maxDiskQuota : Nat) (sigValid : Bool)
    (f : IncomingFile) (now : Int) (st : ServerState)
    (hquota : checkDiskQuota maxDiskQuota st.root = false)
    (hfresh : ∀ e ∈ st.root.raw, entryName e ≠ f.filename) :
    (uploadHandler maxDiskQuota sigValid f now st).1 = .quotaExceeded
    ∧ (uploadHandler maxDiskQuota sigValid f now st).2.root.raw = st.root.raw
    ∧ (uploadHandler maxDiskQuota sigValid f now st).2.root.processed = st.root.processed
    ∧ (uploadHandler maxDiskQuota sigValid f now st).2.root.others = st.root.others
    ∧ (uploadHandler maxDiskQuota sigValid f now st).2.catalog = st.catalog := by
  have hpre : ¬ (entriesSize (uploadDirEntries st.root) < maxDiskQuota) := by
    simpa [checkDiskQuota] using hquota
  have hpost : checkDiskQuota maxDiskQuota
      { st.root with raw := st.root.raw ++ [.file f.filename f.size] } = false := by
    simp only [checkDiskQuota, uploadDirEntries, entriesSize, entrySize,
      entriesSize_append] at hpre ⊢
    simp only [decide_eq_false_iff_not]
    omega
  have hrestore :
      (st.root.raw ++ [FSEntry.file f.filename f.size]).filter
        (fun e => !decide (entryName e = f.filename)) = st.root.raw := by
    rw [List.filter_append]
    have h1 : st.root.raw.filter (fun e => !decide (entryName e = f.filename)) = st.root.raw :=
      List.filter_eq_self.mpr (fun e he => by simp [hfresh e he])
    have h2 : [FSEntry.file f.filename f.size].filter
        (fun e => !decide (entryName e = f.filename)) = [] := by
      simp [List.filter, entryName]
    rw [h1, h2, List.append_nil]
  refine ⟨?_, ?_, ?_, ?_, ?_⟩ <;>
    simp [uploadHandler, hpost, deleteRawFile, hrestore]

/-- Witness for C3: a concrete upload into a zero-byte quota. -/
theorem uploadHandler_quota_exceeded_atomic_witness :
    (uploadHandler 0 true
      { filename := "u1.jpg", fileId := "u1", originalName := "cat.jpg",
        size := 3, mimeType := "image/jpeg" } 17
      { root := { raw := [], processed := [], others := [] }, catalog := [] }).1
      = .quotaExceeded
    ∧ (uploadHandler 0 true
      { filename := "u1.jpg", fileId := "u1", originalName := "cat.jpg",
        size := 3, mimeType := "image/jpeg" } 17
      { root := { raw := [], processed := [], others := [] }, catalog := [] }).2.catalog
      = [] := by
  have h := uploadHandler_quota_exceeded_atomic 0 true
    { filename := "u1.jpg", fileId := "u1", originalName := "cat.jpg",
      size := 3, mimeType := "image/jpeg" } 17
    { root := { raw := [], processed := [], others := [] }, catalog := [] }
    (by simp [checkDiskQuota, uploadDirEntries, entriesSize, entrySize])
    (by intro e he; simp at he)
  exact ⟨h.1, h.2.2.2.2⟩

/-! ## C4: signature matching and corruption -/

theorem matchesSignature_eq_take (b s : List Nat) :
    matchesSignature b s = true ↔ b.take s.length = s := by
  induction s generalizing b with
  | nil => simp [matchesSignature]
  | cons sh st ih =>
    cases b with
    | nil => simp [matchesSignature]
    | cons bh bt => simp [matchesSignature, ih]

theorem exists_of_take_eq {b s : List Nat} (h : b.take s.length = s) :
    ∃ t, b = s ++ t := by
  refine ⟨b.drop s.length, ?_⟩
  conv_lhs => rw [← List.take_append_drop s.length b]
  rw [h]

/-- The four registered signatures, in table order. -/
def allSignatures : List (List Nat) :=
  [[0xff, 0xd8, 0xff],
   [0x89, 0x50, 0x4e, 0x47, 0x0d, 0x0a, 0x1a, 0x0a],
   [0x52, 0x49, 0x46, 0x46],
   [0x47, 0x49, 0x46, 0x38]]

theorem valid_of_match_jpeg {b : List Nat}
    (h : matchesSignature b [0xff, 0xd8, 0xff] = true) :
    fromBuffer b = some "image/jpeg" ∧ validateFileSignature b = true := by
  obtain ⟨t, rfl⟩ := exists_of_take_eq ((matchesSignature_eq_take b _).mp h)
  constructor
  · simp [fromBuffer, MAGIC_BYTES, List.find?, matchesSignature]
  · simp [validateFileSignature, fromBuffer, MAGIC_BYTES, allowedMimeTypes,
      List.find?, List.lookup, matchesSignature]

theorem valid_of_match_png {b : List Nat}
    (h : matchesSignature b [0x89, 0x50, 0x4e, 0x47, 0x0d, 0x0a, 0x1a, 0x0a] = true) :
    fromBuffer b = some "image/png" ∧ validateFileSignature b = true := by
  obtain ⟨t, rfl⟩ := exists_of_take_eq ((matchesSignature_eq_take b _).mp h)
  constructor
  · simp [fromBuffer, MAGIC_BYTES, List.find?, matchesSignature]
  · simp [validateFileSignature, fromBuffer, MAGIC_BYTES, allowedMimeTypes,
      List.find?, List.lookup, matchesSignature]

theorem valid_of_match_webp {b : List Nat}
    (h : matchesSignature b [0x52, 0x49, 0x46, 0x46] = true) :
    fromBuffer b = some "image/webp" ∧ validateFileSignature b = true := by
  obtain ⟨t, rfl⟩ := exists_of_take_eq ((matchesSignature_eq_take b _).mp h)
  constructor
  · simp [fromBuffer, MAGIC_BYTES, List.find?, matchesSignature]
  · simp [validateFileSignature, fromBuffer, MAGIC_BYTES, allowedMimeTypes,
      List.find?, List.lookup, matchesSignature]

theorem valid_of_match_gif {b : List Nat}
    (h : matchesSignature b [0x47, 0x49, 0x46, 0x38] = true) :
    fromBuffer b = some "image/gif" ∧ validateFileSignature b = true := by
  obtain ⟨t, rfl⟩ := exists_of_take_eq ((matchesSignature_eq_take b _).mp h)
  constructor
  · simp [fromBuffer, MAGIC_BYTES, List.find?, matchesSignature]
  · simp [validateFileSignature, fromBuffer, MAGIC_BYTES, allowedMimeTypes,
      List.find?, List.lookup, matchesSignature]

/-- Corrupting any byte inside the matched signature region makes the
buffer match no registered signature at all: any two distinct signatures
disagree in at least two positions of their common prefix, so a
single-byte corruption cannot turn one match into another. -/
theorem set_matches_no_signature :
    ∀ sig1 ∈ allSignatures, ∀ sig2 ∈ allSignatures, ∀ (b : List Nat) (i x : Nat),
      matchesSignature b sig1 = true → i < sig1.length → x ≠ sig1.getD i 0 →
      matchesSignature (b.set i x) sig2 = false := by
  intro sig1 h1 sig2 h2 b i x hm hi hx
  obtain ⟨t, rfl⟩ := exists_of_take_eq ((matchesSignature_eq_take b sig1).mp hm)
  fin_cases h1 <;> simp at hi <;> interval_cases i <;> simp at hx <;>
    fin_cases h2 <;> simp [matchesSignature, hx]

theorem fromBuffer_eq_none_of_no_match {b : List Nat}
    (h : ∀ sig ∈ allSignatures, matchesSignature b sig = false) : fromBuffer b = none := by
  unfold fromBuffer
  rw [List.find?_eq_none.mpr]
  · rfl
  · intro entry hentry
    simp only [MAGIC_BYTES, List.mem_cons, List.not_mem_nil, or_false] at hentry
    rcases hentry with rfl | rfl | rfl | rfl
    · have hs := h [0xff, 0xd8, 0xff] (by simp [allSignatures])
      simp [hs]
    · have hs := h [0x89, 0x50, 0x4e, 0x47, 0x0d, 0x0a, 0x1a, 0x0a] (by simp [allSignatures])
      simp [hs]
    · have hs := h [0x52, 0x49, 0x46, 0x46] (by simp [allSignatures])
      simp [hs]
    · have hs := h [0x47, 0x49, 0x46, 0x38] (by simp [allSignatures])
      simp [hs]

/-- C4: a buffer whose leading bytes match a format's registered signature
is sniffed and validated as that format (for each of the four supported
formats), and corrupting any byte inside the matched signature prefix
makes validation reject the buffer. -/
theorem validateFileSignature_spec :
    (∀ buffer, matchesSignature buffer [0xff, 0xd8, 0xff] = true →
        fromBuffer buffer = some "image/jpeg" ∧ validateFileSignature buffer = true)
    ∧ (∀ buffer,
        matchesSignature buffer [0x89, 0x50, 0x4e, 0x47, 0x0d, 0x0a, 0x1a, 0x0a] = true →
        fromBuffer buffer = some "image/png" ∧ validateFileSignature buffer = true)
    ∧ (∀ buffer, matchesSignature buffer [0x52, 0x49, 0x46, 0x46] = true →
        fromBuffer buffer = some "image/webp" ∧ validateFileSignature buffer = true)
    ∧ (∀ buffer, matchesSignature buffer [0x47, 0x49, 0x46, 0x38] = true →
        fromBuffer buffer = some "image/gif" ∧ validateFileSignature buffer = true)
    ∧ (∀ sig ∈ allSignatures, ∀ (buffer : List Nat) (i x : Nat),
        matchesSignature buffer sig = true → i < sig.length → x ≠ sig.getD i 0 →
        validateFileSignature (buffer.set i x) = false) := by
  refine ⟨fun buffer h => valid_of_match_jpeg h, fun buffer h => valid_of_match_png h,
    fun buffer h => valid_of_match_webp h, fun buffer h => valid_of_match_gif h,
    fun sig hsig buffer i x hm hi hx => ?_⟩
  have hnone : fromBuffer (buffer.set i x) = none :=
    fromBuffer_eq_none_of_no_match
      (fun sig2 hsig2 => set_matches_no_signature sig hsig sig2 hsig2 buffer i x hm hi hx)
  simp [validateFileSignature, hnone]

/-- Witness for C4: a four-byte JPEG-signed buffer validates; corrupting
its second signature byte makes it rejected. -/
theorem validateFileSignature_spec_witness :
    validateFileSignature [0xff, 0xd8, 0xff, 0x00] = true
    ∧ validateFileSignature (([0xff, 0xd8, 0xff, 0x00] : List Nat).set 1 0) = false :=
  ⟨(validateFileSignature_spec.1 [0xff, 0xd8, 0xff, 0x00] (by decide)).2,
   validateFileSignature_spec.2.2.2.2 [0xff, 0xd8, 0xff] (by decide)
     [0xff, 0xd8, 0xff, 0x00] 1 0 (by decide) (by decide) (by decide)⟩

end ImageApp
